import Mathlib

/-!
# Verification of the hours-tracker core (team-9143/hours-tracker)

Shallow embedding of the time-accounting core of `src/main.ts` (the canonical,
richest variant: the first file in `src/main.ts`), `src/functions.ts` and the
admin flows of `src/menu.ts`.

Modelling conventions:
* JavaScript `Date` objects that carry a duration or a timestamp are modelled
  as `Int` milliseconds (the script does all arithmetic on `getTime()` values).
* Spreadsheet text (cell display values, notes, metadata) is modelled as
  `List Char`, which matches JavaScript strings as sequences of characters.
* The spreadsheet sheet is modelled by the `Sheet` structure below: the header
  cell of the current-week column (the rollover marker, a date the store parses
  from the `M/D` text written by `startWeek`) and, per data row, the fields the
  core reads and writes (address, hour-requirement cell, check-in cell, timeout
  counter, and the row's weekly-log cells, current week first — column 7 is the
  leftmost and newest week column, older weeks sit to its right).  The
  `totalHours` and `missedHours` cells hold formulas (derived values) and are
  not part of the mutable state.
* A thrown JS exception is modelled by an `err` result that carries the state
  at throw time, since spreadsheet writes performed before the throw persist.
* `Number(component)` in `durationToDate` is modelled on the fragment of the
  JS `Number` grammar that the tracker produces and stores: an optional sign
  followed by decimal digits (empty text converts to 0, a missing component —
  `undefined` — and non-numeric text convert to NaN, i.e. `none`).
* `Intl.DateTimeFormat.format` (only used to build audit-note text) is passed
  in as an explicit `fmt : Int → List Char` parameter.
* Local time is identified with UTC (the script never leaves the host's zone).
-/

/-! ## Decimal digits: the model of JavaScript number-to-string conversion -/

/-- Character of a single decimal digit, `0 ≤ n ≤ 9` giving `'0'`–`'9'`. -/
def digitChar (n : Nat) : Char := Char.ofNat (48 + n)

/-- Decimal digits of `n`, most significant first, with explicit fuel so that
the definition is structural and kernel-evaluable.  `natDigits` below always
supplies enough fuel. -/
def natDigitsF : Nat → Nat → List Char
  | 0, _ => []
  | f + 1, n =>
    if n < 10 then [digitChar n]
    else natDigitsF f (n / 10) ++ [digitChar (n % 10)]

/-- Decimal representation of a natural number: the model of JavaScript
`String(n)` / string-concatenation coercion for non-negative integers. -/
def natDigits (n : Nat) : List Char := natDigitsF (n + 1) n

/-- Whether `c` is a decimal digit character. -/
def isDigitCh (c : Char) : Bool := 48 ≤ c.toNat && c.toNat ≤ 57

/-- Accumulating decimal parser: consumes digit characters, `none` on any
non-digit. -/
def parseDigitsAux (acc : Nat) : List Char → Option Nat
  | [] => some acc
  | c :: cs =>
    if isDigitCh c then parseDigitsAux (acc * 10 + (c.toNat - 48)) cs
    else none

/-- Parse a non-empty all-digit string; `none` on empty input or any
non-digit character. -/
def parseDigits : List Char → Option Nat
  | [] => none
  | c :: cs => parseDigitsAux 0 (c :: cs)

/-- Model of JavaScript `Number(s)` on the integer fragment produced and
stored by the tracker: optional sign then decimal digits; the empty string
converts to `0`; anything else is NaN (`none`). -/
def jsNumber (s : List Char) : Option Int :=
  match s with
  | [] => some 0
  | c :: rest =>
    if c = '-' then (parseDigits rest).map (fun k => -(k : Int))
    else if c = '+' then (parseDigits rest).map (fun k => (k : Int))
    else (parseDigits (c :: rest)).map (fun k => (k : Int))

/-- Model of `Number(x)` where `x` may be `undefined` (a destructured
component that is absent): `undefined` converts to NaN. -/
def jsNumberOpt : Option (List Char) → Option Int
  | none => none
  | some s => jsNumber s

/-! ## String splitting: the model of `String.prototype.split(':')` -/

/-- Split a character list at every occurrence of `sep`, JavaScript
`s.split(sep)` semantics: always returns at least one (possibly empty)
segment. -/
def splitCh (sep : Char) : List Char → List (List Char)
  | [] => [[]]
  | c :: cs =>
    if c = sep then [] :: splitCh sep cs
    else
      match splitCh sep cs with
      | [] => [[c]]
      | h :: t => (c :: h) :: t

/-! ## Calendar arithmetic for `Date` UTC field extraction -/

/-- Day of the month (1-based) of the civil date `z` days after 1970-01-01,
by the standard days-from-civil inversion; this is the model of
`Date.prototype.getUTCDate` applied to a non-negative time value `z` whole
days after the epoch. -/
def dayOfMonthFromDays (z : Nat) : Nat :=
  let zz := z + 719468
  let doe := zz % 146097
  let yoe := (doe - doe / 1460 + doe / 36524 - doe / 146096) / 365
  let doy := doe - (365 * yoe + yoe / 4 - yoe / 100)
  let mp := (5 * doy + 2) / 153
  doy - (153 * mp + 2) / 5 + 1

/-! ## The Duration Codec (`src/main.ts` lines 43–74) -/

/-- Left-pad a number below 10 with `'0'`, the model of
`(x < 10 ? '0'+x : x)`. -/
def pad2 (n : Nat) : List Char := if n < 10 then '0' :: natDigits n else natDigits n

/-- `formatElapsedTime` (`src/main.ts:44`): formats a millisecond duration
within a month of the epoch into `HH:MM:SS` with leading zeros and a minus
sign if necessary.  A negative duration is negated first and the sign
prepended; hours are `(getUTCDate()-1)*24 + getUTCHours()`, minutes and
seconds the corresponding UTC fields. -/
def formatElapsedTime (t : Int) : List Char :=
  let n : Nat := t.natAbs
  let hours : Nat := (dayOfMonthFromDays (n / 86400000) - 1) * 24 + n / 3600000 % 24
  let minutes : Nat := n / 60000 % 60
  let seconds : Nat := n / 1000 % 60
  (if t < 0 then ['-'] else [])
    ++ pad2 hours ++ ':' :: pad2 minutes ++ ':' :: pad2 seconds

/-- `durationToDate` (`src/main.ts:62`): splits a duration string on `':'`,
converts the first three components with `Number`, and builds a `Date` from
`h*3600000 + m*60000 + s*1000`; throws (`none`) when the result is an
invalid date (NaN from a malformed or missing component, or a time value
beyond the `Date` range of ±8.64e15 ms). -/
def durationToDate (s : List Char) : Option Int :=
  match jsNumberOpt ((splitCh ':' s).get? 0), jsNumberOpt ((splitCh ':' s).get? 1),
      jsNumberOpt ((splitCh ':' s).get? 2) with
  | some h, some m, some sec =>
    if (h * 3600000 + m * 60000 + sec * 1000).natAbs > 8640000000000000 then none
    else some (h * 3600000 + m * 60000 + sec * 1000)
  | _, _, _ => none

/-! ## Metadata formatting (`src/main.ts:77`) -/

/-- Whitespace recognized by the model of `String.prototype.trim`. -/
def isWsCh (c : Char) : Bool := c = ' ' || c = '\t' || c = '\n' || c = '\r'

/-- Model of `String.prototype.trim`. -/
def jsTrim (s : List Char) : List Char :=
  ((s.dropWhile isWsCh).reverse.dropWhile isWsCh).reverse

/-- ASCII lower-casing of one character, the model of `toLowerCase` on the
metadata text the tracker compares against `'n/a'`. -/
def lowerCh (c : Char) : Char :=
  if 65 ≤ c.toNat && c.toNat ≤ 90 then Char.ofNat (c.toNat + 32) else c

/-- Replace every line break (`\r\n`, `\n` or `\r`) by `"; "`, the model of
`metadata.replace(/\r?\n|\r/g, '; ')`. -/
def replaceBreaks : List Char → List Char
  | [] => []
  | '\r' :: '\n' :: rest => ';' :: ' ' :: replaceBreaks rest
  | '\n' :: rest => ';' :: ' ' :: replaceBreaks rest
  | '\r' :: rest => ';' :: ' ' :: replaceBreaks rest
  | c :: rest => c :: replaceBreaks rest

/-- `formatMetadata` (`src/main.ts:77`): trim; empty or case-insensitive
`n/a` normalizes to `N/A`; otherwise line breaks become `"; "`. -/
def formatMetadata (metadata : List Char) : List Char :=
  let m := jsTrim metadata
  if m = [] ∨ m.map lowerCh = "n/a".toList then "N/A".toList
  else replaceBreaks m

/-! ## Missed-hours accrual engine (`src/functions.ts`) -/

/-- Multiplier for missed hours into recovery time (`src/functions.ts:8`). -/
def missedTimeMultiplier : Int := 2

/-- One step of the historical walk of `GET_MISSED_HOURS`: given the weekly
requirement, the running requirement and one week's logged display value,
add double the shortfall or pay down outstanding debt, flooring at zero. -/
def missedHoursStep (weeklyReqMS : Int) (acc : Option Int) (cell : List Char) : Option Int :=
  acc.bind fun requiredMS =>
    (durationToDate cell).map fun lt =>
      let deltaMS := lt - weeklyReqMS
      if deltaMS < 0 then requiredMS + -deltaMS * missedTimeMultiplier
      else if requiredMS > 0 then requiredMS - min deltaMS requiredMS
      else requiredMS

/-- `GET_MISSED_HOURS` (`src/functions.ts:11`) as a function of the values it
reads from the sheet: the row's hour-requirement display value and the row's
weekly-log display values in sheet order (current week first, then newer to
older).  The walk runs from the oldest column to the newest, excluding the
current week (`for col = weeks-1; col > 0; col--`), then the current week's
surplus above the requirement pays down the remainder.  `none` models a
thrown `Invalid duration`. -/
def GET_MISSED_HOURS (hourReq : List Char) (loggedTime : List (List Char)) : Option (List Char) :=
  (durationToDate hourReq).bind fun weeklyReqMS =>
    (((loggedTime.drop 1).reverse.foldl (missedHoursStep weeklyReqMS) (some 0)).bind
      fun requiredMS =>
        match loggedTime.head? with
        | none => none
        | some cur =>
          (durationToDate cur).map fun curMS =>
            let currentLoggedAboveMin := curMS - weeklyReqMS
            let finalMS :=
              if currentLoggedAboveMin > 0 then requiredMS - min currentLoggedAboveMin requiredMS
              else requiredMS
            formatElapsedTime finalMS)

/-! ## The ledger state model -/

/-- One weekly-log cell of a row: its display value and its annotation-trail
note. -/
structure WeekCell where
  value : List Char
  note : List Char
deriving DecidableEq

/-- One member ledger row: the cells of the data row that the core reads and
writes.  `weeks` holds the weekly-log cells, current week first (sheet
column 7), then older weeks.  The `totalHours` and `missedHours` cells are
formulas (derived values) and carry no state. -/
structure MemberRow where
  address : List Char
  hourReq : List Char
  checkIn : Option Int
  timeoutCount : Int
  weeks : List WeekCell
deriving DecidableEq

/-- The mutable sheet state: the week-column header cells of the header row
(current week's marker first — the `addHours` rollover check reads the head)
and the data rows. -/
structure Sheet where
  weekHeaders : List Int
  rows : List MemberRow
deriving DecidableEq

/-- Error kinds thrown by `addHours`: `Invalid duration` from
`durationToDate`, `Invalid logged hours`, and `Cannot log a negative number
of hours` (the `InvalidAccrual` of the specification). -/
inductive OpErr where
  | invalidDuration
  | invalidLoggedHours
  | invalidAccrual
deriving DecidableEq

/-- Result of a mutating operation.  A JS throw aborts the operation but the
spreadsheet writes already performed persist, so the error carries the state
at throw time. -/
inductive OpResult where
  | ok (st : Sheet)
  | err (e : OpErr) (st : Sheet)
deriving DecidableEq

/-- Sequence a further mutation after a successful one; a throw propagates
with its state. -/
def OpResult.andThen (r : OpResult) (f : Sheet → OpResult) : OpResult :=
  match r with
  | .ok st => f st
  | .err e st => .err e st

/-- The state after an operation, whether it returned or threw. -/
def resState : OpResult → Sheet
  | .ok st => st
  | .err _ st => st

/-- Run a list of steps left to right, stopping at the first throw: the model
of `forEach` over mutating steps. -/
def runList (f : Sheet → α → OpResult) (st : Sheet) : List α → OpResult
  | [] => .ok st
  | x :: xs =>
    match f st x with
    | .ok st1 => runList f st1 xs
    | .err e st1 => .err e st1

/-- Rewrite one data row in place (a write to a cell of row `idx`); writes to
a row that does not exist leave the model unchanged. -/
def updateRowAt (st : Sheet) (idx : Nat) (f : MemberRow → MemberRow) : Sheet :=
  match st.rows.get? idx with
  | some r => { st with rows := st.rows.set idx (f r) }
  | none => st

/-- Display value of a row's current-week log cell (`getDisplayValue` of
column 7); an absent cell displays as the empty string. -/
def readCurrentCell (r : MemberRow) : List Char :=
  match r.weeks with
  | [] => []
  | c :: _ => c.value

/-- Note of a row's current-week log cell (`getNote`); an absent cell has the
empty note. -/
def readCurrentNote (r : MemberRow) : List Char :=
  match r.weeks with
  | [] => []
  | c :: _ => c.note

/-! ## Constants (`src/main.ts:28–29`) -/

/-- Time given back after a timeout (30 minutes), `timeoutReturnTime`. -/
def timeoutReturnTime : Int := 1800000

/-- Time until an automated timeout is performed (3.25 hours), `timeoutReq`. -/
def timeoutReq : Int := 11700000

/-! ## Week rollover (`src/main.ts:93–96` and `startWeek`, lines 189–202) -/

/-- JavaScript `getDay()` of time `t` mapped through `|| 7`: day of the week
with Monday = 1 … Sunday = 7 (the epoch fell on a Thursday, `getDay() = 4`).
-/
def dayNumJS (t : Int) : Int :=
  if (Int.fdiv t 86400000 + 4) % 7 = 0 then 7
  else (Int.fdiv t 86400000 + 4) % 7

/-- The Monday 00:00 of the week of `t`: `new Date()` at `t`, hours set to
`-24*(dayNum-1)` and minutes/seconds/milliseconds zeroed
(`src/main.ts:191–194`). -/
def mondayOf (t : Int) : Int :=
  (Int.fdiv t 86400000 - (dayNumJS t - 1)) * 86400000

/-- A fresh zero week cell as written by `startWeek` (`'0:0:0'`, empty note).
-/
def zeroWeekCell : WeekCell := { value := "0:0:0".toList, note := [] }

/-- `startWeek` (`src/main.ts:189`): insert a new current-week column, headed
by the Monday of the present week (the `M/D` text the store reads back as
that date) and filled with `'0:0:0'` for every data row. -/
def startWeek (now : Int) (st : Sheet) : Sheet :=
  { weekHeaders := mondayOf now :: st.weekHeaders,
    rows := st.rows.map fun r => { r with weeks := zeroWeekCell :: r.weeks } }

/-- The week-rollover check performed at the top of `addHours`
(`src/main.ts:94`): if more than a week has passed since the current-week
marker, open a new week.  An absent marker cell reads as `''`, which the
subtraction coerces to `0`. -/
def rolloverCheck (now : Int) (st : Sheet) : Sheet :=
  if now - st.weekHeaders.headD 0 > 604800000 then startWeek now st else st

/-- No week rollover is due at time `now`: at most a week has passed since
the current-week marker.  Reducible so that concrete instances are
decidable. -/
abbrev noRollover (now : Int) (st : Sheet) : Prop :=
  ¬ now - st.weekHeaders.headD 0 > 604800000

/-! ## The attendance state machine (`src/main.ts:90–163`) -/

/-- The audit note appended by `addHours`:
`'\n\nLogged <elapsed> from <callStack> for:\n<metadata>'` after the existing
note. -/
def auditNote (oldNote : List Char) (elapsed : Int) (callStack metadata : List Char) :
    List Char :=
  oldNote ++ "\n\n".toList ++ "Logged ".toList ++ formatElapsedTime elapsed
    ++ " from ".toList ++ callStack ++ " for:\n".toList ++ formatMetadata metadata

/-- `addHours` (`src/main.ts:90`): run the week-rollover check, parse the
current-week cell's display value, add the elapsed time, reject an invalid
or negative total, then write the formatted total back and append the audit
note.  The `Range` handle is by coordinates, so after a rollover the write
lands in the freshly inserted column. -/
def addHours (now : Int) (idx : Nat) (elapsed : Int) (callStack metadata : List Char)
    (st : Sheet) : OpResult :=
  match (rolloverCheck now st).rows.get? idx with
  | none => .err .invalidDuration (rolloverCheck now st)
  | some r =>
    match durationToDate (readCurrentCell r) with
    | none => .err .invalidDuration (rolloverCheck now st)
    | some v =>
      if (v + elapsed).natAbs > 8640000000000000 then
        .err .invalidLoggedHours (rolloverCheck now st)
      else if v + elapsed < 0 then .err .invalidAccrual (rolloverCheck now st)
      else
        .ok { rolloverCheck now st with
              rows := (rolloverCheck now st).rows.set idx
                { r with
                  weeks := { value := formatElapsedTime (v + elapsed),
                             note := auditNote (readCurrentNote r) elapsed callStack metadata } ::
                           r.weeks.tail } }

/-- `checkIn` (`src/main.ts:121`): write the current time into the row's
check-in cell. -/
def checkIn (now : Int) (idx : Nat) (st : Sheet) : Sheet :=
  updateRowAt st idx fun r => { r with checkIn := some now }

/-- `checkOut` (`src/main.ts:128`): if the row is checked in, add the elapsed
time with a `checkin <formatted time>` source tag and the caller's metadata,
then clear the check-in cell; otherwise do nothing. -/
def checkOut (fmt : Int → List Char) (now : Int) (idx : Nat) (metadata : List Char)
    (st : Sheet) : OpResult :=
  match st.rows.get? idx with
  | none => .ok st
  | some r =>
    match r.checkIn with
    | none => .ok st
    | some cit =>
      (addHours now idx (now - cit) ("checkin ".toList ++ fmt cit) metadata st).andThen
        fun st1 => .ok (updateRowAt st1 idx fun r2 => { r2 with checkIn := none })

/-- `timeout` (`src/main.ts:146`): if the row is checked in, credit the fixed
timeout-return duration with metadata `Timeout`, void the check-in, and
increment the timeout counter. -/
def timeout (fmt : Int → List Char) (now : Int) (idx : Nat) (st : Sheet) : OpResult :=
  match st.rows.get? idx with
  | none => .ok st
  | some r =>
    match r.checkIn with
    | none => .ok st
    | some cit =>
      (addHours now idx timeoutReturnTime ("checkin ".toList ++ fmt cit) ("Timeout".toList)
          st).andThen
        fun st1 =>
          .ok (updateRowAt (updateRowAt st1 idx fun r2 => { r2 with checkIn := none }) idx
            fun r3 => { r3 with timeoutCount := r3.timeoutCount + 1 })

/-- The per-row condition of the timeout sweep: the check-in cell is not
blank and the elapsed time has passed the timeout requirement
(`src/main.ts:170–177`). -/
def timedOut (now : Int) (st : Sheet) (i : Nat) : Bool :=
  match st.rows.get? i with
  | some r =>
    match r.checkIn with
    | some t => decide (now - t > timeoutReq)
    | none => false
  | none => false

/-- `timeoutCheck` (`src/main.ts:166`): the row indexes (0-based here, the
sheet offsets them by `firstDataRowIndex`) of members whose check-in time has
passed the timeout requirement. -/
def timeoutCheck (now : Int) (st : Sheet) : List Nat :=
  (List.range st.rows.length).filter (timedOut now st)

/-- `updateTimeouts` (`src/main.ts:184`): time out every member returned by
`timeoutCheck`.  The list is computed once, then each member is timed out in
order; a throw aborts the rest of the sweep. -/
def updateTimeouts (fmt : Int → List Char) (now : Int) (st : Sheet) : OpResult :=
  runList (fun s i => timeout fmt now i s) st (timeoutCheck now st)

/-! ## Member creation (`src/main.ts:205–223`) -/

/-- The row `addMember` initializes: default hour requirement `6:0:0`, empty
check-in cell, timeout counter `0`, current week `0:0:0`, and empty cells
under the older week columns. -/
def newMemberRow (id : List Char) (st : Sheet) : MemberRow :=
  { address := id,
    hourReq := "6:0:0".toList,
    checkIn := none,
    timeoutCount := 0,
    weeks := { value := "0:0:0".toList, note := [] } ::
             List.replicate (st.weekHeaders.length - 1) { value := [], note := [] } }

/-- `addMember` (`src/main.ts:205`): insert a fresh initialized row before
the first data row.  The subsequent `getFilter().sort` re-orders whole rows
by the `totalHours` column without changing any row's cells, so it is
omitted from the state model. -/
def addMember (id : List Char) (st : Sheet) : Sheet :=
  { st with rows := newMemberRow id st :: st.rows }

/-! ## Admin menu flows (`src/menu.ts`, canonical first variant) -/

/-- `adminCheckIn` (`src/menu.ts:74`), after the interactive prompts have
succeeded with response `metadata`: if the selected row is already checked
in, check it out with the admin-note metadata, then check it in. -/
def adminCheckIn (fmt : Int → List Char) (now : Int) (idx : Nat) (metadata : List Char)
    (st : Sheet) : OpResult :=
  match st.rows.get? idx with
  | some r =>
    match r.checkIn with
    | some _ =>
      (checkOut fmt now idx ("Admin nt: ".toList ++ formatMetadata metadata) st).andThen
        fun st1 => .ok (checkIn now idx st1)
    | none => .ok (checkIn now idx st)
  | none => .ok (checkIn now idx st)

/-- `adminResetTimeouts` (`src/menu.ts:150`): snapshot the check-in column,
then for every checked-in member add the elapsed hours with metadata
`Admin timeout reset` and re-check them in.  Despite its name it never
writes the timeout counter. -/
def adminResetTimeouts (fmt : Int → List Char) (now : Int) (st : Sheet) : OpResult :=
  runList
    (fun s p =>
      match p.2 with
      | none => .ok s
      | some cit =>
        (addHours now p.1 (now - cit) ("checkin ".toList ++ fmt cit)
            ("Admin timeout reset".toList) s).andThen
          fun s1 => .ok (checkIn now p.1 s1))
    st (st.rows.enum.map fun p => (p.1, p.2.checkIn))

/-! ## Invariant predicates and concrete demonstration states -/

/-- Row-for-row comparison of timeout counters: every row present at the
same index in both states has a counter at least as large afterwards. -/
def timeoutCountsMono (a b : Sheet) : Prop :=
  ∀ i r r', a.rows.get? i = some r → b.rows.get? i = some r' →
    r.timeoutCount ≤ r'.timeoutCount

/-- One operation step viewed through the timeout counters: the row count is
preserved and no row's counter decreases. -/
def MonoStep (a b : Sheet) : Prop :=
  b.rows.length = a.rows.length ∧ timeoutCountsMono a b

/-- A trivial stand-in for `Intl.DateTimeFormat.format` used by the concrete
demonstration states (its output only flows into audit-note text). -/
def noFmt : Int → List Char := fun _ => []

/-- A fresh current-week log cell used by the demonstration states. -/
def demoCell : WeekCell := { value := "0:0:0".toList, note := [] }

/-- A checked-out member row with zero logged time for the demonstration
states. -/
def demoRowOut : MemberRow :=
  { address := "a".toList, hourReq := "6:0:0".toList, checkIn := none,
    timeoutCount := 0, weeks := [demoCell] }

/-- The same member row checked in at time `0`. -/
def demoRowIn : MemberRow := { demoRowOut with checkIn := some 0 }

/-- A one-member sheet whose member is checked out; the current-week marker
sits at the epoch. -/
def demoSheetOut : Sheet := { weekHeaders := [0], rows := [demoRowOut] }

/-- A one-member sheet whose member is checked in at time `0`. -/
def demoSheetIn : Sheet := { weekHeaders := [0], rows := [demoRowIn] }

/-! ## Lemmas: decimal digits round-trip -/

/-- For digits `n < 10`, `digitChar n` is a digit character of value `n`. -/
theorem digitChar_spec : ∀ n, n < 10 →
    isDigitCh (digitChar n) = true ∧ (digitChar n).toNat = 48 + n := by decide

/-- The accumulating digit parser distributes over append. -/
theorem parseDigitsAux_append (xs ys : List Char) :
    ∀ acc, parseDigitsAux acc (xs ++ ys) =
      (parseDigitsAux acc xs).bind fun m => parseDigitsAux m ys := by
  induction xs with
  | nil => intro acc; simp [parseDigitsAux]
  | cons c cs ih =>
    intro acc
    simp only [List.cons_append, parseDigitsAux]
    split
    · exact ih _
    · simp

/-- Parsing the fuelled digit string of `n` recovers `n` under any
accumulator. -/
theorem parseDigitsAux_natDigitsF :
    ∀ f n, n < f → ∀ acc,
      parseDigitsAux acc (natDigitsF f n) =
        some (acc * 10 ^ (natDigitsF f n).length + n) := by
  intro f
  induction f with
  | zero => intro n hn; exact (Nat.not_lt_zero n hn).elim
  | succ f ih =>
    intro n hn acc
    by_cases h10 : n < 10
    · have hd := digitChar_spec n h10
      simp [natDigitsF, if_pos h10, parseDigitsAux, hd.1, hd.2]
    · have hge : 10 ≤ n := Nat.le_of_not_lt h10
      have hdiv : n / 10 < f := by omega
      have hd := digitChar_spec (n % 10) (Nat.mod_lt _ (by norm_num))
      simp only [natDigitsF, if_neg h10]
      rw [parseDigitsAux_append, ih (n / 10) hdiv acc]
      simp only [Option.some_bind, parseDigitsAux, hd.1, if_pos, hd.2,
        List.length_append, List.length_cons, List.length_nil]
      congr 1
      have hmod := Nat.div_add_mod n 10
      calc (acc * 10 ^ (natDigitsF f (n / 10)).length + n / 10) * 10 + (48 + n % 10 - 48)
          = acc * (10 ^ (natDigitsF f (n / 10)).length * 10) + (10 * (n / 10) + n % 10) := by
            ring_nf; omega
        _ = acc * 10 ^ ((natDigitsF f (n / 10)).length + 1) + n := by
            rw [hmod, pow_succ]

/-- Parsing the decimal representation of `n` yields `n`. -/
theorem parseDigitsAux_natDigits (n : Nat) : parseDigitsAux 0 (natDigits n) = some n := by
  have h := parseDigitsAux_natDigitsF (n + 1) n (Nat.lt_succ_self n) 0
  simpa [natDigits] using h

/-- Every character of a fuelled digit string is a digit. -/
theorem natDigitsF_digits : ∀ f n c, c ∈ natDigitsF f n → isDigitCh c = true := by
  intro f
  induction f with
  | zero => intro n c hc; simp [natDigitsF] at hc
  | succ f ih =>
    intro n c hc
    by_cases h10 : n < 10
    · simp only [natDigitsF, if_pos h10, List.mem_singleton] at hc
      exact hc ▸ (digitChar_spec n h10).1
    · simp only [natDigitsF, if_neg h10, List.mem_append, List.mem_singleton] at hc
      rcases hc with hc | hc
      · exact ih _ _ hc
      · exact hc ▸ (digitChar_spec (n % 10) (Nat.mod_lt _ (by norm_num))).1

/-- Decimal representations are never empty. -/
theorem natDigits_ne_nil (n : Nat) : natDigits n ≠ [] := by
  by_cases h10 : n < 10
  · simp [natDigits, natDigitsF, if_pos h10]
  · simp [natDigits, natDigitsF, if_neg h10]

/-- Every character of a padded two-digit rendering is a digit. -/
theorem pad2_digits (k : Nat) (c : Char) (hc : c ∈ pad2 k) : isDigitCh c = true := by
  unfold pad2 at hc
  by_cases hk : k < 10
  · rw [if_pos hk] at hc
    rcases List.mem_cons.mp hc with hc | hc
    · exact hc ▸ (by decide)
    · exact natDigitsF_digits _ _ _ hc
  · rw [if_neg hk] at hc
    exact natDigitsF_digits _ _ _ hc

/-- Padded renderings are never empty. -/
theorem pad2_ne_nil (k : Nat) : pad2 k ≠ [] := by
  unfold pad2
  by_cases hk : k < 10
  · simp [if_pos hk]
  · simp [if_neg hk, natDigits_ne_nil]

/-- The separator `':'` never occurs in a padded rendering. -/
theorem colon_not_mem_pad2 (k : Nat) : ':' ∉ pad2 k := by
  intro hm
  exact absurd (pad2_digits k ':' hm) (by decide)

/-- `jsNumber` on a non-empty all-digit string is the digit parser's value. -/
theorem jsNumber_digits (s : List Char) (hne : s ≠ [])
    (h : ∀ x ∈ s, isDigitCh x = true) :
    jsNumber s = (parseDigitsAux 0 s).map (fun k => (k : Int)) := by
  cases s with
  | nil => exact absurd rfl hne
  | cons c cs =>
    have hc := h c (List.mem_cons_self c cs)
    have hm : c ≠ '-' := by intro e; rw [e] at hc; exact absurd hc (by decide)
    have hp : c ≠ '+' := by intro e; rw [e] at hc; exact absurd hc (by decide)
    simp [jsNumber, if_neg hm, if_neg hp, parseDigits]

/-- `jsNumber` recovers `k` from its padded rendering. -/
theorem jsNumber_pad2 (k : Nat) : jsNumber (pad2 k) = some (k : Int) := by
  rw [jsNumber_digits (pad2 k) (pad2_ne_nil k) (pad2_digits k)]
  unfold pad2
  by_cases hk : k < 10
  · rw [if_pos hk]
    simp [parseDigitsAux, isDigitCh, parseDigitsAux_natDigits]
  · rw [if_neg hk]
    simp [parseDigitsAux_natDigits]

/-! ## Lemmas: splitting -/

/-- Splitting a separator-free string yields that single segment. -/
theorem splitCh_eq_single (sep : Char) (a : List Char) (h : sep ∉ a) :
    splitCh sep a = [a] := by
  induction a with
  | nil => rfl
  | cons c cs ih =>
    have hcs : sep ∉ cs := fun m => h (List.mem_cons_of_mem _ m)
    have hc : ¬(c = sep) := fun e => h (e ▸ List.mem_cons_self c cs)
    simp [splitCh, if_neg hc, ih hcs]

/-- Splitting a string that starts with a separator-free segment peels that
segment off. -/
theorem splitCh_append_sep (sep : Char) (a b : List Char) (h : sep ∉ a) :
    splitCh sep (a ++ sep :: b) = a :: splitCh sep b := by
  induction a with
  | nil => simp [splitCh]
  | cons c cs ih =>
    have hcs : sep ∉ cs := fun m => h (List.mem_cons_of_mem _ m)
    have hc : ¬(c = sep) := fun e => h (e ▸ List.mem_cons_self c cs)
    simp [splitCh, if_neg hc, ih hcs]

/-! ## Lemmas: the duration codec round-trip -/

/-- Day-of-month within the first month after the epoch. -/
theorem dayOfMonthFromDays_small : ∀ z, z < 31 → dayOfMonthFromDays z = z + 1 := by decide

/-- Round-trip of the duration codec on non-negative whole-second durations
within a month of the epoch (the domain `formatElapsedTime` documents):
parsing the formatted text recovers the duration exactly. -/
theorem durationToDate_formatElapsedTime (d : Int) (h0 : 0 ≤ d) (h1 : d < 2678400000)
    (h2 : (1000 : Int) ∣ d) : durationToDate (formatElapsedTime d) = some d := by
  have hday : dayOfMonthFromDays (d.natAbs / 86400000) = d.natAbs / 86400000 + 1 :=
    dayOfMonthFromDays_small _ (by omega)
  have hhours : (dayOfMonthFromDays (d.natAbs / 86400000) - 1) * 24 + d.natAbs / 3600000 % 24
      = d.natAbs / 3600000 := by
    rw [hday]; omega
  have hfmt : formatElapsedTime d =
      pad2 (d.natAbs / 3600000) ++
        ':' :: (pad2 (d.natAbs / 60000 % 60) ++ ':' :: pad2 (d.natAbs / 1000 % 60)) := by
    unfold formatElapsedTime
    rw [if_neg (by omega : ¬ d < 0)]
    simp [hhours]
  rw [hfmt]
  unfold durationToDate
  rw [splitCh_append_sep ':' _ _ (colon_not_mem_pad2 _),
    splitCh_append_sep ':' _ _ (colon_not_mem_pad2 _),
    splitCh_eq_single ':' _ (colon_not_mem_pad2 _)]
  simp only [List.get?, jsNumberOpt, jsNumber_pad2]
  have htot : ((d.natAbs / 3600000 : Nat) : Int) * 3600000
      + ((d.natAbs / 60000 % 60 : Nat) : Int) * 60000
      + ((d.natAbs / 1000 % 60 : Nat) : Int) * 1000 = d := by
    rcases h2 with ⟨q, hq⟩
    omega
  rw [htot, if_neg (by omega)]

/-! ## Lemmas: parsed durations are whole milliseconds of whole seconds -/

/-- Whatever `durationToDate` accepts is a whole number of seconds. -/
theorem durationToDate_dvd (s : List Char) (v : Int)
    (h : durationToDate s = some v) : (1000 : Int) ∣ v := by
  unfold durationToDate at h
  split at h
  · split at h
    · exact absurd h (by simp)
    · injection h with h
      omega
  · exact absurd h (by simp)

/-! ## Lemmas: the Monday marker -/

/-- The Monday 00:00 computed by `startWeek` is at most a week before `now`
and never after it. -/
theorem mondayOf_bounds (t : Int) : 0 ≤ t - mondayOf t ∧ t - mondayOf t < 604800000 := by
  unfold mondayOf dayNumJS
  rw [Int.fdiv_eq_ediv _ (by norm_num)]
  constructor
  · split <;> omega
  · split <;> omega

/-- The Monday marker is never later than `now` and at most a week earlier,
restated for direct use. -/
theorem noRollover_iff (now : Int) (st : Sheet) :
    noRollover now st ↔ now - st.weekHeaders.headD 0 ≤ 604800000 := by
  constructor <;> (intro h; omega)

/-! ## Lemmas: the rollover check -/

/-- When no rollover is due, the rollover check is the identity. -/
theorem rolloverCheck_of_noRollover (now : Int) (st : Sheet) (h : noRollover now st) :
    rolloverCheck now st = st := by
  unfold rolloverCheck
  rw [if_neg h]

/-- After `startWeek` at time `now`, no rollover is due at time `now`. -/
theorem noRollover_startWeek (now : Int) (st : Sheet) : noRollover now (startWeek now st) := by
  have hb := mondayOf_bounds now
  show ¬ now - mondayOf now > 604800000
  omega

/-- The rollover check is idempotent at a fixed `now`: a second check right
after the first opens no further week. -/
theorem rolloverCheck_idem (now : Int) (st : Sheet) :
    rolloverCheck now (rolloverCheck now st) = rolloverCheck now st := by
  by_cases hr : now - st.weekHeaders.headD 0 > 604800000
  · unfold rolloverCheck
    rw [if_pos hr, if_neg (noRollover_startWeek now st)]
  · rw [rolloverCheck_of_noRollover now st hr, rolloverCheck_of_noRollover now st hr]

/-! ## Lemmas: row updates -/

/-- Row index bound from a successful lookup. -/
theorem get?_some_lt {l : List MemberRow} {i : Nat} {r : MemberRow}
    (h : l.get? i = some r) : i < l.length := by
  rcases List.get?_eq_some.mp h with ⟨hlt, _⟩
  exact hlt

/-- `updateRowAt` never touches the header row. -/
theorem updateRowAt_headers (st : Sheet) (idx : Nat) (f : MemberRow → MemberRow) :
    (updateRowAt st idx f).weekHeaders = st.weekHeaders := by
  unfold updateRowAt
  split <;> rfl

/-- `updateRowAt` preserves the number of rows. -/
theorem updateRowAt_length (st : Sheet) (idx : Nat) (f : MemberRow → MemberRow) :
    (updateRowAt st idx f).rows.length = st.rows.length := by
  unfold updateRowAt
  split
  · exact List.length_set ..
  · rfl

/-- `updateRowAt` leaves every other row unchanged. -/
theorem updateRowAt_get_ne (st : Sheet) (idx : Nat) (f : MemberRow → MemberRow)
    (k : Nat) (hk : k ≠ idx) :
    (updateRowAt st idx f).rows.get? k = st.rows.get? k := by
  unfold updateRowAt
  split
  · exact List.get?_set_ne _ _ (fun e => hk e.symm)
  · rfl

/-- `updateRowAt` rewrites exactly the addressed row. -/
theorem updateRowAt_get_self (st : Sheet) (idx : Nat) (f : MemberRow → MemberRow)
    (r : MemberRow) (hget : st.rows.get? idx = some r) :
    (updateRowAt st idx f).rows.get? idx = some (f r) := by
  unfold updateRowAt
  rw [hget]
  exact List.get?_set_eq_of_lt _ (get?_some_lt hget)

/-! ## Lemmas: `addHours` under no pending rollover -/

/-- Unfolding of `addHours` when no rollover is due: the rollover check is
the identity and every branch acts on the original state. -/
theorem addHours_eq_of_noRollover (now : Int) (idx : Nat) (elapsed : Int)
    (cs md : List Char) (st : Sheet) (h : noRollover now st) :
    addHours now idx elapsed cs md st =
      match st.rows.get? idx with
      | none => .err .invalidDuration st
      | some r =>
        match durationToDate (readCurrentCell r) with
        | none => .err .invalidDuration st
        | some v =>
          if (v + elapsed).natAbs > 8640000000000000 then .err .invalidLoggedHours st
          else if v + elapsed < 0 then .err .invalidAccrual st
          else
            .ok { st with
                  rows := st.rows.set idx
                    { r with
                      weeks := { value := formatElapsedTime (v + elapsed),
                                 note := auditNote (readCurrentNote r) elapsed cs md } ::
                               r.weeks.tail } } := by
  unfold addHours
  rw [rolloverCheck_of_noRollover now st h]

/-- A throwing `addHours` call under no pending rollover leaves the state
exactly as it was. -/
theorem addHours_err_state (now : Int) (idx : Nat) (elapsed : Int) (cs md : List Char)
    (st st' : Sheet) (er : OpErr) (h : noRollover now st)
    (herr : addHours now idx elapsed cs md st = .err er st') : st' = st := by
  rw [addHours_eq_of_noRollover now idx elapsed cs md st h] at herr
  split at herr
  · injection herr with _ h'; exact h'.symm ▸ rfl
  · split at herr
    · injection herr with _ h'; exact h'.symm ▸ rfl
    · split at herr
      · injection herr with _ h'; exact h'.symm ▸ rfl
      · split at herr
        · injection herr with _ h'; exact h'.symm ▸ rfl
        · exact absurd herr (by simp)

/-- A successful `addHours` call under no pending rollover: the total was
non-negative and exactly the addressed row's current-week cell was
rewritten. -/
theorem addHours_ok_state (now : Int) (idx : Nat) (elapsed : Int) (cs md : List Char)
    (st st' : Sheet) (r : MemberRow) (v : Int) (h : noRollover now st)
    (hget : st.rows.get? idx = some r)
    (hv : durationToDate (readCurrentCell r) = some v)
    (hok : addHours now idx elapsed cs md st = .ok st') :
    0 ≤ v + elapsed ∧
    st' = { st with
            rows := st.rows.set idx
              { r with
                weeks := { value := formatElapsedTime (v + elapsed),
                           note := auditNote (readCurrentNote r) elapsed cs md } ::
                         r.weeks.tail } } := by
  rw [addHours_eq_of_noRollover now idx elapsed cs md st h, hget] at hok
  simp only at hok
  rw [hv] at hok
  simp only at hok
  split at hok
  · exact absurd hok (by simp)
  · split at hok
    · exact absurd hok (by simp)
    · injection hok with h'
      exact ⟨by omega, h'.symm⟩

/-- Frame of a successful `addHours` under no pending rollover: headers, row
count and all other rows are untouched. -/
theorem addHours_ok_frame (now : Int) (idx : Nat) (elapsed : Int) (cs md : List Char)
    (st st' : Sheet) (h : noRollover now st)
    (hok : addHours now idx elapsed cs md st = .ok st') :
    st'.weekHeaders = st.weekHeaders ∧ st'.rows.length = st.rows.length ∧
    ∀ k, k ≠ idx → st'.rows.get? k = st.rows.get? k := by
  rw [addHours_eq_of_noRollover now idx elapsed cs md st h] at hok
  split at hok
  · exact absurd hok (by simp)
  · split at hok
    · exact absurd hok (by simp)
    · split at hok
      · exact absurd hok (by simp)
      · split at hok
        · exact absurd hok (by simp)
        · injection hok with h'
          refine h'.symm ▸ ⟨rfl, List.length_set .., fun k hk => ?_⟩
          exact List.get?_set_ne _ _ (fun e => hk e.symm)

/-! ## Lemmas: `timeout` under no pending rollover -/

/-- Frame of a successful `timeout` under no pending rollover: headers, row
count and all rows other than the addressed one are untouched. -/
theorem timeout_ok_frame (fmt : Int → List Char) (now : Int) (j : Nat) (st st' : Sheet)
    (h : noRollover now st) (hok : timeout fmt now j st = .ok st') :
    st'.weekHeaders = st.weekHeaders ∧ st'.rows.length = st.rows.length ∧
    ∀ k, k ≠ j → st'.rows.get? k = st.rows.get? k := by
  unfold timeout at hok
  split at hok
  · injection hok with h'; exact h' ▸ ⟨rfl, rfl, fun _ _ => rfl⟩
  · split at hok
    · injection hok with h'; exact h' ▸ ⟨rfl, rfl, fun _ _ => rfl⟩
    · cases ha : addHours now j timeoutReturnTime _ _ st with
      | err er st1 =>
        rw [ha] at hok
        exact absurd hok (by simp [OpResult.andThen])
      | ok st1 =>
        rw [ha] at hok
        simp only [OpResult.andThen] at hok
        injection hok with h'
        obtain ⟨hh, hl, hr⟩ := addHours_ok_frame now j timeoutReturnTime _ _ st st1 h ha
        refine h' ▸ ⟨by rw [updateRowAt_headers, updateRowAt_headers, hh],
          by rw [updateRowAt_length, updateRowAt_length, hl], fun k hk => ?_⟩
        rw [updateRowAt_get_ne _ _ _ k hk, updateRowAt_get_ne _ _ _ k hk, hr k hk]

/-- Effect of a successful `timeout` on the addressed row, under no pending
rollover: the current-week cell gains the timeout-return time and the audit
note, the check-in is voided, and the timeout counter grows by one. -/
theorem timeout_ok_effect (fmt : Int → List Char) (now : Int) (j : Nat) (st st' : Sheet)
    (r : MemberRow) (cit v : Int) (h : noRollover now st)
    (hget : st.rows.get? j = some r) (hcit : r.checkIn = some cit)
    (hv : durationToDate (readCurrentCell r) = some v)
    (hok : timeout fmt now j st = .ok st') :
    0 ≤ v + timeoutReturnTime ∧
    st'.rows.get? j = some
      { r with
        weeks := { value := formatElapsedTime (v + timeoutReturnTime),
                   note := auditNote (readCurrentNote r) timeoutReturnTime
                     ("checkin ".toList ++ fmt cit) ("Timeout".toList) } :: r.weeks.tail,
        checkIn := none,
        timeoutCount := r.timeoutCount + 1 } := by
  unfold timeout at hok
  rw [hget] at hok
  simp only at hok
  rw [hcit] at hok
  simp only at hok
  cases ha : addHours now j timeoutReturnTime ("checkin ".toList ++ fmt cit)
      ("Timeout".toList) st with
  | err er st1 =>
    rw [ha] at hok
    exact absurd hok (by simp [OpResult.andThen])
  | ok st1 =>
    rw [ha] at hok
    simp only [OpResult.andThen] at hok
    injection hok with h'
    obtain ⟨hpos, hst1⟩ := addHours_ok_state now j timeoutReturnTime _ _ st st1 r v h hget hv ha
    have hget1 : st1.rows.get? j = some
        { r with
          weeks := { value := formatElapsedTime (v + timeoutReturnTime),
                     note := auditNote (readCurrentNote r) timeoutReturnTime
                       ("checkin ".toList ++ fmt cit) ("Timeout".toList) } :: r.weeks.tail } := by
      rw [hst1]
      exact List.get?_set_eq_of_lt _ (get?_some_lt hget)
    refine ⟨hpos, ?_⟩
    rw [← h']
    rw [updateRowAt_get_self _ _ _ _ (updateRowAt_get_self _ _ _ _ hget1)]

/-! ## Lemmas: running step lists -/

/-- `runList` splits over list append, a throw short-circuiting the rest. -/
theorem runList_append {α : Type} (f : Sheet → α → OpResult) (st : Sheet) (xs ys : List α) :
    runList f st (xs ++ ys) = (runList f st xs).andThen fun s => runList f s ys := by
  induction xs generalizing st with
  | nil => simp [runList, OpResult.andThen]
  | cons x xs ih =>
    simp only [List.cons_append, runList]
    cases hfx : f st x with
    | ok st1 => exact ih st1
    | err e st1 => rfl

/-- Folding `timeout` over a list of indexes that avoids `i` preserves the
headers, the row count, and row `i`, as long as no rollover is pending. -/
theorem runList_timeout_preserve (fmt : Int → List Char) (now : Int) :
    ∀ (L : List Nat) (st st' : Sheet) (i : Nat),
      noRollover now st → (∀ j ∈ L, j ≠ i) →
      runList (fun s k => timeout fmt now k s) st L = .ok st' →
      st'.weekHeaders = st.weekHeaders ∧ st'.rows.length = st.rows.length ∧
      st'.rows.get? i = st.rows.get? i := by
  intro L
  induction L with
  | nil =>
    intro st st' i _ _ hok
    injection hok with h'
    exact h' ▸ ⟨rfl, rfl, rfl⟩
  | cons j L ih =>
    intro st st' i h hne hok
    simp only [runList] at hok
    cases ht : timeout fmt now j st with
    | err e st1 =>
      rw [ht] at hok
      exact absurd hok (by simp)
    | ok st1 =>
      rw [ht] at hok
      obtain ⟨hh, hl, hr⟩ := timeout_ok_frame fmt now j st st1 h ht
      have h1 : noRollover now st1 := by
        show ¬ now - st1.weekHeaders.headD 0 > 604800000
        rw [hh]
        exact h
      obtain ⟨ih1, ih2, ih3⟩ :=
        ih st1 st' i h1 (fun j' hj' => hne j' (List.mem_cons_of_mem _ hj')) hok
      exact ⟨ih1.trans hh, ih2.trans hl,
        ih3.trans (hr i (Ne.symm (hne j (List.mem_cons_self j L))))⟩

/-- A member of a duplicate-free list splits it into a prefix and suffix
that both avoid it. -/
theorem nodup_split {α : Type} [DecidableEq α] {i : α} {L : List α}
    (hmem : i ∈ L) (hnd : L.Nodup) :
    ∃ L1 L2, L = L1 ++ i :: L2 ∧ i ∉ L1 ∧ i ∉ L2 := by
  obtain ⟨L1, L2, rfl⟩ := List.append_of_mem hmem
  rw [List.nodup_append] at hnd
  exact ⟨L1, L2, rfl, fun hi1 => hnd.2.2 hi1 (List.mem_cons_self i L2),
    (List.nodup_cons.mp hnd.2.1).1⟩

/-- The sweep's index list never repeats a row. -/
theorem timeoutCheck_nodup (now : Int) (st : Sheet) : (timeoutCheck now st).Nodup :=
  (List.nodup_range st.rows.length).filter _

/-- Membership in the sweep's index list for a row checked in at `t`. -/
theorem timeoutCheck_mem (now : Int) (st : Sheet) (i : Nat) (r : MemberRow) (t : Int)
    (hget : st.rows.get? i = some r) (hcit : r.checkIn = some t) :
    i ∈ timeoutCheck now st ↔ now - t > timeoutReq := by
  unfold timeoutCheck
  rw [List.mem_filter]
  unfold timedOut
  rw [hget]
  simp only
  rw [hcit]
  simp only [List.mem_range, decide_eq_true_eq]
  constructor
  · exact fun hh => hh.2
  · exact fun hh => ⟨get?_some_lt hget, hh⟩

/-! ## Lemmas: monotonicity of the timeout counter -/

/-- `MonoStep` is reflexive. -/
theorem monoStep_refl (a : Sheet) : MonoStep a a := by
  refine ⟨rfl, fun i r r' h1 h2 => ?_⟩
  rw [h1] at h2
  injection h2 with h2
  exact h2 ▸ le_refl _

/-- `MonoStep` composes. -/
theorem monoStep_trans {a b c : Sheet} (h1 : MonoStep a b) (h2 : MonoStep b c) :
    MonoStep a c := by
  refine ⟨h2.1.trans h1.1, fun i r r' hga hgc => ?_⟩
  have hlen := h1.1
  have hia := get?_some_lt hga
  have hib : i < b.rows.length := by omega
  have hgb : b.rows.get? i = some (b.rows.get ⟨i, hib⟩) := List.get?_eq_get hib
  exact (h1.2 i r _ hga hgb).trans (h2.2 i _ r' hgb hgc)

/-- A row update that never lowers the counter is a `MonoStep`. -/
theorem monoStep_updateRowAt (st : Sheet) (idx : Nat) (f : MemberRow → MemberRow)
    (hf : ∀ r, r.timeoutCount ≤ (f r).timeoutCount) :
    MonoStep st (updateRowAt st idx f) := by
  refine ⟨updateRowAt_length st idx f, fun i r r' h1 h2 => ?_⟩
  by_cases hi : i = idx
  · subst hi
    rw [updateRowAt_get_self st i f r h1] at h2
    injection h2 with h2
    exact h2 ▸ hf r
  · rw [updateRowAt_get_ne st idx f i hi, h1] at h2
    injection h2 with h2
    exact h2 ▸ le_refl _

/-- Replacing one row by one with an equal-or-larger counter is a
`MonoStep`. -/
theorem monoStep_set (st : Sheet) (idx : Nat) (r r' : MemberRow)
    (hget : st.rows.get? idx = some r) (hc : r.timeoutCount ≤ r'.timeoutCount) :
    MonoStep st { st with rows := st.rows.set idx r' } := by
  refine ⟨List.length_set .., fun i r0 r0' h1 h2 => ?_⟩
  by_cases hi : i = idx
  · subst hi
    rw [hget] at h1
    injection h1 with h1
    simp only at h2
    rw [List.get?_set_eq_of_lt _ (get?_some_lt hget)] at h2
    injection h2 with h2
    exact h1 ▸ h2 ▸ hc
  · simp only at h2
    rw [List.get?_set_ne _ _ (fun e => hi e.symm), h1] at h2
    injection h2 with h2
    exact h2 ▸ le_refl _

/-- `startWeek` touches only the week columns: counters are untouched. -/
theorem monoStep_startWeek (now : Int) (st : Sheet) : MonoStep st (startWeek now st) := by
  refine ⟨List.length_map .., fun i r r' h1 h2 => ?_⟩
  unfold startWeek at h2
  simp only [List.get?_map, h1, Option.map_some] at h2
  injection h2 with h2
  exact h2 ▸ le_refl _

/-- The rollover check never changes a counter. -/
theorem monoStep_rolloverCheck (now : Int) (st : Sheet) :
    MonoStep st (rolloverCheck now st) := by
  unfold rolloverCheck
  split
  · exact monoStep_startWeek now st
  · exact monoStep_refl st

/-- Sequencing preserves `MonoStep` when both halves do. -/
theorem monoStep_andThen (st : Sheet) (r : OpResult) (f : Sheet → OpResult)
    (h1 : MonoStep st (resState r))
    (h2 : ∀ s, r = .ok s → MonoStep s (resState (f s))) :
    MonoStep st (resState (r.andThen f)) := by
  cases r with
  | ok s =>
    simp only [OpResult.andThen]
    simp only [resState] at h1
    exact monoStep_trans h1 (h2 s rfl)
  | err e s =>
    simp only [OpResult.andThen]
    exact h1

/-- `addHours` never changes a counter, whether it returns or throws. -/
theorem monoStep_addHours (now : Int) (idx : Nat) (elapsed : Int) (cs md : List Char)
    (st : Sheet) : MonoStep st (resState (addHours now idx elapsed cs md st)) := by
  cases hg : (rolloverCheck now st).rows.get? idx with
  | none =>
    simp only [addHours, hg, resState]
    exact monoStep_rolloverCheck now st
  | some r =>
    cases hv : durationToDate (readCurrentCell r) with
    | none =>
      simp only [addHours, hg, hv, resState]
      exact monoStep_rolloverCheck now st
    | some v =>
      simp only [addHours, hg, hv]
      split
      · simp only [resState]
        exact monoStep_rolloverCheck now st
      · split
        · simp only [resState]
          exact monoStep_rolloverCheck now st
        · simp only [resState]
          exact monoStep_trans (monoStep_rolloverCheck now st)
            (monoStep_set _ idx r _ hg (le_refl _))

/-- `checkIn` never changes a counter. -/
theorem monoStep_checkIn (now : Int) (idx : Nat) (st : Sheet) :
    MonoStep st (checkIn now idx st) :=
  monoStep_updateRowAt st idx _ (fun _ => le_refl _)

/-- `checkOut` never changes a counter, whether it returns or throws. -/
theorem monoStep_checkOut (fmt : Int → List Char) (now : Int) (idx : Nat)
    (md : List Char) (st : Sheet) : MonoStep st (resState (checkOut fmt now idx md st)) := by
  unfold checkOut
  split
  · exact monoStep_refl st
  · split
    · exact monoStep_refl st
    · refine monoStep_andThen st _ _ (monoStep_addHours now idx _ _ md st) fun s _ => ?_
      simp only [resState]
      exact monoStep_updateRowAt s idx _ (fun _ => le_refl _)

/-- `timeout` only ever increments a counter. -/
theorem monoStep_timeout (fmt : Int → List Char) (now : Int) (idx : Nat) (st : Sheet) :
    MonoStep st (resState (timeout fmt now idx st)) := by
  unfold timeout
  split
  · exact monoStep_refl st
  · split
    · exact monoStep_refl st
    · refine monoStep_andThen st _ _
        (monoStep_addHours now idx timeoutReturnTime _ _ st) fun s _ => ?_
      simp only [resState]
      refine monoStep_trans
        (monoStep_updateRowAt s idx (fun r2 => { r2 with checkIn := none })
          (fun _ => le_refl _))
        (monoStep_updateRowAt _ idx
          (fun r3 => { r3 with timeoutCount := r3.timeoutCount + 1 }) (fun r => ?_))
      show r.timeoutCount ≤ r.timeoutCount + 1
      omega

/-- Folding counter-monotone steps is counter-monotone. -/
theorem monoStep_runList {α : Type} (f : Sheet → α → OpResult)
    (hf : ∀ s x, MonoStep s (resState (f s x))) :
    ∀ (L : List α) (st : Sheet), MonoStep st (resState (runList f st L)) := by
  intro L
  induction L with
  | nil => intro st; exact monoStep_refl st
  | cons x xs ih =>
    intro st
    simp only [runList]
    cases hfx : f st x with
    | ok st1 =>
      have h1 : MonoStep st st1 := by
        have := hf st x
        rw [hfx] at this
        exact this
      exact monoStep_trans h1 (ih st1)
    | err e st1 =>
      have h1 : MonoStep st st1 := by
        have := hf st x
        rw [hfx] at this
        exact this
      exact h1

/-- The timeout sweep only ever increments counters. -/
theorem monoStep_updateTimeouts (fmt : Int → List Char) (now : Int) (st : Sheet) :
    MonoStep st (resState (updateTimeouts fmt now st)) :=
  monoStep_runList _ (fun s x => monoStep_timeout fmt now x s) (timeoutCheck now st) st

/-- The admin reset-timeouts sweep, despite its name, never writes the
counter. -/
theorem monoStep_adminResetTimeouts (fmt : Int → List Char) (now : Int) (st : Sheet) :
    MonoStep st (resState (adminResetTimeouts fmt now st)) := by
  refine monoStep_runList _ (fun s p => ?_) _ st
  rcases p with ⟨i, ci⟩
  cases ci with
  | none =>
    simp only [resState]
    exact monoStep_refl s
  | some cit =>
    simp only
    refine monoStep_andThen s _ _
      (monoStep_addHours now i (now - cit) ("checkin ".toList ++ fmt cit)
        ("Admin timeout reset".toList) s) fun s1 _ => ?_
    simp only [resState]
    exact monoStep_checkIn now i s1

/-! ## The claims -/

/-- C1 (counterexample): the round trip fails for negative durations.  At
`d = -90000` ms (minus ninety seconds) the formatter emits `-00:01:30`, but
only the hours component carries the sign through `Number`, so parsing
returns `+90000` ms, not `d`. -/
theorem C1_cex :
    durationToDate (formatElapsedTime (-90000)) = some 90000 ∧
    durationToDate (formatElapsedTime (-90000)) ≠ some (-90000) := by decide

/-- C1 (amended): for every non-negative integer-second duration `d` within
a month of the epoch (the domain `formatElapsedTime` documents), parsing the
formatted text yields the original duration:
`durationToDate (formatElapsedTime d) = some d`. -/
theorem C1_amended (d : Int) (h0 : 0 ≤ d) (h1 : d < 2678400000)
    (h2 : (1000 : Int) ∣ d) : durationToDate (formatElapsedTime d) = some d :=
  durationToDate_formatElapsedTime d h0 h1 h2

/-- C1 (witness): the amended round trip at `d = 5000` ms. -/
theorem C1_witness : durationToDate (formatElapsedTime 5000) = some 5000 :=
  C1_amended 5000 (by norm_num) (by norm_num) ⟨5, by norm_num⟩

/-- C2: with no rollover pending, a well-formed current-week cell parsing to
`v`, and the sum within the `Date` range, `addHours` fails with
`InvalidAccrual` exactly when `v + elapsed < 0`; when the sum is
non-negative it succeeds and stores exactly the formatted sum — it never
floors a negative result to zero. -/
theorem C2_addHours_nonneg (now : Int) (idx : Nat) (elapsed : Int) (cs md : List Char)
    (st : Sheet) (r : MemberRow) (v : Int)
    (hnr : noRollover now st)
    (hget : st.rows.get? idx = some r)
    (hv : durationToDate (readCurrentCell r) = some v)
    (hbound : (v + elapsed).natAbs ≤ 8640000000000000) :
    (addHours now idx elapsed cs md st = .err .invalidAccrual st ↔ v + elapsed < 0) ∧
    (0 ≤ v + elapsed →
      addHours now idx elapsed cs md st =
        .ok { st with
              rows := st.rows.set idx
                { r with
                  weeks := { value := formatElapsedTime (v + elapsed),
                             note := auditNote (readCurrentNote r) elapsed cs md } ::
                           r.weeks.tail } }) := by
  rw [addHours_eq_of_noRollover now idx elapsed cs md st hnr, hget]
  simp only
  rw [hv]
  simp only
  rw [if_neg (by omega)]
  constructor
  · by_cases hlt : v + elapsed < 0
    · rw [if_pos hlt]
      exact ⟨fun _ => hlt, fun _ => rfl⟩
    · rw [if_neg hlt]
      exact ⟨fun h => absurd h (by simp), fun h => absurd h hlt⟩
  · intro hge
    rw [if_neg (by omega)]

/-- C2 (witness): on the one-member demonstration sheet with zero logged
time, subtracting one second fails with `InvalidAccrual`. -/
theorem C2_witness :
    addHours 1000 0 (-1000) [] [] demoSheetOut = .err .invalidAccrual demoSheetOut := by
  have h := C2_addHours_nonneg 1000 0 (-1000) [] [] demoSheetOut demoRowOut 0
    (by decide) (by decide) (by decide) (by decide)
  exact h.1.mpr (by norm_num)

/-- C3 (counterexample): an `addHours` call that aborts with
`InvalidAccrual` is not always a pure no-op — when a rollover was due, the
rollover fires first, so the aborted call leaves behind a freshly inserted
week column and an advanced marker. -/
theorem C3_cex :
    addHours 700000000 0 (-1000) ("admin".toList) [] demoSheetOut
      = .err .invalidAccrual (startWeek 700000000 demoSheetOut) ∧
    startWeek 700000000 demoSheetOut ≠ demoSheetOut := by decide

/-- C3 (amended): when `addHours` aborts with `InvalidAccrual` and no week
rollover was due at the call, no stored state is mutated: the weekly log
cell, its annotation trail and every other cell are exactly as before. -/
theorem C3_amended (now : Int) (idx : Nat) (elapsed : Int) (cs md : List Char)
    (st st' : Sheet)
    (hnr : noRollover now st)
    (herr : addHours now idx elapsed cs md st = .err .invalidAccrual st') :
    st' = st :=
  addHours_err_state now idx elapsed cs md st st' .invalidAccrual hnr herr

/-- C3 (witness): the amended no-mutation property at a concrete aborting
call with no rollover due. -/
theorem C3_witness :
    ∃ st', addHours 1000 0 (-1000) [] [] demoSheetOut = .err .invalidAccrual st' ∧
      st' = demoSheetOut := by
  refine ⟨demoSheetOut, by decide, ?_⟩
  exact C3_amended 1000 0 (-1000) [] [] demoSheetOut demoSheetOut (by decide) (by decide)

/-- C4: with hour requirement `6:00:00`, historical weekly logs `2:00:00`,
`6:00:00`, `9:00:00` (oldest to newest — the sheet stores them current week
first, newest to oldest) and current week `0:00:00`, the missed-hours
computation returns `05:00:00`: the 4-hour shortfall doubles to 8 hours of
debt, the exactly-met week contributes nothing, the 3-hour surplus reduces
the debt to 5 hours, and the current week reduces nothing further. -/
theorem C4_missed_hours :
    GET_MISSED_HOURS ("6:00:00".toList)
      ["0:00:00".toList, "9:00:00".toList, "6:00:00".toList, "2:00:00".toList]
      = some ("05:00:00".toList) := by decide

/-- C5: for a row checked in at `T` with a well-formed current-week cell
parsing to `v ≥ 0` and no rollover pending, a timeout sweep run one second
before `T + threshold` leaves the row exactly as it was, while a sweep run
one second after `T + threshold` forces the row to checked-out, increments
its timeout counter by exactly one, and increases its current-week logged
duration by exactly the fixed 30-minute timeout-return duration. -/
theorem C5_timeout_sweep (fmt : Int → List Char) (idx : Nat) (st : Sheet)
    (r : MemberRow) (T v : Int)
    (hget : st.rows.get? idx = some r)
    (hcit : r.checkIn = some T)
    (hv : durationToDate (readCurrentCell r) = some v)
    (hvb : v + timeoutReturnTime < 2678400000) :
    (noRollover (T + timeoutReq - 1000) st →
      ∀ st', updateTimeouts fmt (T + timeoutReq - 1000) st = .ok st' →
        st'.rows.get? idx = some r) ∧
    (noRollover (T + timeoutReq + 1000) st →
      ∀ st', updateTimeouts fmt (T + timeoutReq + 1000) st = .ok st' →
        ∃ r', st'.rows.get? idx = some r' ∧
          r'.checkIn = none ∧
          r'.timeoutCount = r.timeoutCount + 1 ∧
          durationToDate (readCurrentCell r') = some (v + timeoutReturnTime)) := by
  constructor
  · intro hnr st' hok
    have hnm : idx ∉ timeoutCheck (T + timeoutReq - 1000) st := by
      rw [timeoutCheck_mem _ st idx r T hget hcit]
      omega
    unfold updateTimeouts at hok
    exact (runList_timeout_preserve fmt _ _ st st' idx hnr
      (fun j hj e => hnm (e ▸ hj)) hok).2.2.trans hget
  · intro hnr st' hok
    have hmem : idx ∈ timeoutCheck (T + timeoutReq + 1000) st :=
      (timeoutCheck_mem _ st idx r T hget hcit).mpr (by omega)
    obtain ⟨L1, L2, hsplit, hi1, hi2⟩ := nodup_split hmem (timeoutCheck_nodup _ st)
    unfold updateTimeouts at hok
    rw [hsplit, runList_append] at hok
    cases h1 : runList (fun s k => timeout fmt (T + timeoutReq + 1000) k s) st L1 with
    | err e s1 =>
      rw [h1] at hok
      exact absurd hok (by simp [OpResult.andThen])
    | ok st1 =>
      rw [h1] at hok
      simp only [OpResult.andThen, runList] at hok
      obtain ⟨p1h, p1l, p1r⟩ := runList_timeout_preserve fmt _ L1 st st1 idx hnr
        (fun j hj e => hi1 (e ▸ hj)) h1
      have hnr1 : noRollover (T + timeoutReq + 1000) st1 := by
        show ¬ T + timeoutReq + 1000 - st1.weekHeaders.headD 0 > 604800000
        rw [p1h]
        exact hnr
      have hget1 : st1.rows.get? idx = some r := p1r.trans hget
      cases h2 : timeout fmt (T + timeoutReq + 1000) idx st1 with
      | err e s2 =>
        rw [h2] at hok
        exact absurd hok (by simp)
      | ok st2 =>
        rw [h2] at hok
        obtain ⟨hpos, heff⟩ :=
          timeout_ok_effect fmt _ idx st1 st2 r T v hnr1 hget1 hcit hv h2
        obtain ⟨f2h, f2l, f2r⟩ := timeout_ok_frame fmt _ idx st1 st2 hnr1 h2
        have hnr2 : noRollover (T + timeoutReq + 1000) st2 := by
          show ¬ T + timeoutReq + 1000 - st2.weekHeaders.headD 0 > 604800000
          rw [f2h]
          exact hnr1
        obtain ⟨p2h, p2l, p2r⟩ := runList_timeout_preserve fmt _ L2 st2 st' idx hnr2
          (fun j hj e => hi2 (e ▸ hj)) hok
        refine ⟨_, p2r.trans heff, rfl, rfl, ?_⟩
        show durationToDate (formatElapsedTime (v + timeoutReturnTime))
          = some (v + timeoutReturnTime)
        refine durationToDate_formatElapsedTime _ hpos hvb ?_
        exact dvd_add (durationToDate_dvd _ _ hv) ⟨1800, by norm_num [timeoutReturnTime]⟩

/-- C5 (witness): sweeping the one-member demonstration sheet one second
after the threshold times the member out, increments the counter and credits
thirty minutes. -/
theorem C5_witness :
    ∃ r', (resState (updateTimeouts noFmt (0 + timeoutReq + 1000) demoSheetIn)).rows.get? 0
        = some r' ∧
      r'.checkIn = none ∧
      r'.timeoutCount = demoRowIn.timeoutCount + 1 ∧
      durationToDate (readCurrentCell r') = some (0 + timeoutReturnTime) := by
  have h := (C5_timeout_sweep noFmt 0 demoSheetIn demoRowIn 0 0
    (by decide) (by decide) (by decide) (by decide)).2 (by decide)
  exact h _ (by decide)

/-- C6 (counterexample): on a checked-in row, the bare `checkIn` function is
not the composition of `checkOut` and `checkIn` at the same timestamp: the
pair logs the elapsed time and appends an audit note, the bare `checkIn`
only overwrites the timestamp cell. -/
theorem C6_cex :
    ((checkOut noFmt 1000 0 ("x".toList) demoSheetIn).andThen
        fun s => .ok (checkIn 1000 0 s))
      ≠ .ok (checkIn 1000 0 demoSheetIn) := by decide

/-- C6 (amended): for a row in checked-in state, the re-check-in operation
(`adminCheckIn`, and likewise the form-submission path) yields exactly the
ledger state of `checkOut` with the caller-supplied metadata followed by
`checkIn` at the same timestamp; the bare `checkIn` function performs no
implicit checkout — it only overwrites the row's check-in timestamp. -/
theorem C6_amended (fmt : Int → List Char) (now : Int) (idx : Nat) (md : List Char)
    (st : Sheet) (r : MemberRow) (T : Int)
    (hget : st.rows.get? idx = some r) (hcit : r.checkIn = some T) :
    adminCheckIn fmt now idx md st
      = (checkOut fmt now idx ("Admin nt: ".toList ++ formatMetadata md) st).andThen
          (fun s => .ok (checkIn now idx s)) ∧
    checkIn now idx st = { st with rows := st.rows.set idx { r with checkIn := some now } } := by
  constructor
  · unfold adminCheckIn
    rw [hget]
    simp only
    rw [hcit]
  · unfold checkIn updateRowAt
    rw [hget]

/-- C6 (witness): the admin re-check-in on the demonstration sheet is the
checkout–checkin pair. -/
theorem C6_witness :
    adminCheckIn noFmt 1000 0 ("x".toList) demoSheetIn
      = (checkOut noFmt 1000 0
            ("Admin nt: ".toList ++ formatMetadata ("x".toList)) demoSheetIn).andThen
          (fun s => .ok (checkIn 1000 0 s)) :=
  (C6_amended noFmt 1000 0 ("x".toList) demoSheetIn demoRowIn 0 (by decide) (by decide)).1

/-- C7: `checkOut` on a row whose check-in cell is empty (a checked-out row,
or a row that does not exist) is a no-op: it returns the state unchanged,
appends no audit entry and raises no error. -/
theorem C7_checkOut_noop (fmt : Int → List Char) (now : Int) (idx : Nat) (md : List Char)
    (st : Sheet) (h : (st.rows.get? idx).bind MemberRow.checkIn = none) :
    checkOut fmt now idx md st = .ok st := by
  cases hg : st.rows.get? idx with
  | none =>
    unfold checkOut
    rw [hg]
  | some r =>
    have hc : r.checkIn = none := by
      rw [hg] at h
      simpa using h
    unfold checkOut
    rw [hg]
    simp only
    rw [hc]

/-- C7 (witness): checking out the checked-out demonstration member changes
nothing and raises no error. -/
theorem C7_witness : checkOut noFmt 5 0 [] demoSheetOut = .ok demoSheetOut :=
  C7_checkOut_noop noFmt 5 0 [] demoSheetOut (by decide)

/-- C8: the rollover check is idempotent at a fixed instant — run twice in
immediate succession it opens at most one new week column — and even when
the marker is several weeks stale a single check opens exactly one column,
headed by the present week's Monday and initialized to the zero duration for
every row. -/
theorem C8_rollover (now : Int) (st : Sheet) :
    rolloverCheck now (rolloverCheck now st) = rolloverCheck now st ∧
    (rolloverCheck now (rolloverCheck now st)).weekHeaders.length
      ≤ st.weekHeaders.length + 1 ∧
    (rolloverCheck now st).weekHeaders.length ≤ st.weekHeaders.length + 1 ∧
    (now - st.weekHeaders.headD 0 > 604800000 →
      (rolloverCheck now st).weekHeaders = mondayOf now :: st.weekHeaders ∧
      ∀ i r, st.rows.get? i = some r →
        (rolloverCheck now st).rows.get? i
          = some { r with weeks := zeroWeekCell :: r.weeks }) := by
  have hlen : (rolloverCheck now st).weekHeaders.length ≤ st.weekHeaders.length + 1 := by
    unfold rolloverCheck startWeek
    split
    · simp
    · omega
  refine ⟨rolloverCheck_idem now st, ?_, hlen, fun hfire => ?_⟩
  · rw [rolloverCheck_idem now st]
    exact hlen
  · unfold rolloverCheck
    rw [if_pos hfire]
    refine ⟨rfl, fun i r hr => ?_⟩
    unfold startWeek
    simp only [List.get?_map, hr]
    rfl

/-- C8 (witness): a stale marker at a concrete instant opens exactly one
zero-initialized column headed by the Monday of the present week. -/
theorem C8_witness :
    (rolloverCheck 700000000 demoSheetOut).weekHeaders
        = mondayOf 700000000 :: demoSheetOut.weekHeaders ∧
    (rolloverCheck 700000000 demoSheetOut).rows.get? 0
        = some { demoRowOut with weeks := zeroWeekCell :: demoRowOut.weeks } := by
  have h := (C8_rollover 700000000 demoSheetOut).2.2.2 (by decide)
  exact ⟨h.1, h.2 0 demoRowOut (by decide)⟩

/-- C9: the timeout counter is monotonically non-decreasing: `checkIn`,
`checkOut`, `addHours`, `timeout`, `startWeek`, the timeout sweep and the
admin reset-timeouts sweep each preserve the row count and never decrease
any row's counter (whether they return or throw), `addMember` leaves every
existing row intact, and a freshly added row starts at zero. -/
theorem C9_timeoutCount_monotone :
    (∀ now idx st, MonoStep st (checkIn now idx st)) ∧
    (∀ fmt now idx md st, MonoStep st (resState (checkOut fmt now idx md st))) ∧
    (∀ now idx elapsed cs md st,
      MonoStep st (resState (addHours now idx elapsed cs md st))) ∧
    (∀ fmt now idx st, MonoStep st (resState (timeout fmt now idx st))) ∧
    (∀ now st, MonoStep st (startWeek now st)) ∧
    (∀ fmt now st, MonoStep st (resState (updateTimeouts fmt now st))) ∧
    (∀ fmt now st, MonoStep st (resState (adminResetTimeouts fmt now st))) ∧
    (∀ id st i r, st.rows.get? i = some r →
      (addMember id st).rows.get? (i + 1) = some r) ∧
    (∀ id st, (addMember id st).rows.get? 0 = some (newMemberRow id st)
      ∧ (newMemberRow id st).timeoutCount = 0) := by
  refine ⟨monoStep_checkIn,
    fun fmt now idx md st => monoStep_checkOut fmt now idx md st,
    fun now idx elapsed cs md st => monoStep_addHours now idx elapsed cs md st,
    fun fmt now idx st => monoStep_timeout fmt now idx st,
    monoStep_startWeek,
    fun fmt now st => monoStep_updateTimeouts fmt now st,
    fun fmt now st => monoStep_adminResetTimeouts fmt now st,
    fun id st i r hr => ?_, fun id st => ⟨rfl, rfl⟩⟩
  unfold addMember
  simpa using hr

/-- C9 (witness): an existing row survives `addMember` unchanged, and a
concrete timeout never lowers a counter. -/
theorem C9_witness :
    (addMember ("b".toList) demoSheetOut).rows.get? 1 = some demoRowOut ∧
    timeoutCountsMono demoSheetIn (resState (timeout noFmt 100 0 demoSheetIn)) := by
  have h := C9_timeoutCount_monotone
  exact ⟨h.2.2.2.2.2.2.2.1 ("b".toList) demoSheetOut 0 demoRowOut (by decide),
    (h.2.2.2.1 noFmt 100 0 demoSheetIn).2⟩

/-- C10: `checkIn` by itself writes only the row's check-in timestamp cell:
headers, the row count, and every other row are untouched, and the addressed
row changes in its check-in cell alone — weekly log, annotation trail,
timeout counter and hour requirement are left exactly as they were; no
implicit checkout happens and no hours are logged. -/
theorem C10_checkIn_frame (now : Int) (idx : Nat) (st : Sheet) (r : MemberRow)
    (hget : st.rows.get? idx = some r) :
    (checkIn now idx st).weekHeaders = st.weekHeaders ∧
    (checkIn now idx st).rows.length = st.rows.length ∧
    (∀ j, j ≠ idx → (checkIn now idx st).rows.get? j = st.rows.get? j) ∧
    (checkIn now idx st).rows.get? idx = some { r with checkIn := some now } :=
  ⟨updateRowAt_headers st idx _, updateRowAt_length st idx _,
    fun j hj => updateRowAt_get_ne st idx _ j hj,
    updateRowAt_get_self st idx _ r hget⟩

/-- C10 (witness): checking in the demonstration member writes only its
timestamp cell. -/
theorem C10_witness :
    (checkIn 5 0 demoSheetOut).rows.get? 0 = some { demoRowOut with checkIn := some 5 } :=
  (C10_checkIn_frame 5 0 demoSheetOut demoRowOut (by decide)).2.2.2
